import Mathlib

/-!
# Go-Healthcheck: a shallow embedding of `main.go`

The program is a small HTTP service.  `checkURL` issues one GET request and
classifies the outcome into a status string, `statusHandler` runs it over every
configured path of a domain, `configHandler` serves the loaded configuration and
`loadSettings` reads it at start-up.

Modelling conventions.

* Go strings are Lean strings, sequences of Unicode characters; these are the
  strings a JSON document can hold.  Go slices are `Slice α`: `none` is the nil
  slice, `some xs` a non-nil slice with elements `xs` (the difference is visible
  in the JSON encoding, `null` against `[]`).
* Go's `int` is `Int`; decimal formatting (`%d`) is `FormatInt`.
* The outside world is explicit state: `World σ` carries the state of the
  network (`σ`, answered by a `Client σ`), the list of GET requests issued so
  far and the lines printed to standard output.
* A `http.ResponseWriter` is a recorder of headers, status code and body.
* The standard library is modelled as far as the program uses it: `fmt`,
  `net/http` (`http.Error`, `Header`, `url.Values.Get`) and `encoding/json`.
-/

namespace Healthcheck

/-! ## Strings and slices -/

/-- Go `strings.HasPrefix s p`: the characters of `p` start `s`. -/
def HasPrefix (s p : String) : Prop := p.data <+: s.data

instance (s p : String) : Decidable (HasPrefix s p) := by
  unfold HasPrefix; infer_instance

/-- A Go slice: `none` is nil, `some xs` is a non-nil slice holding `xs`. -/
abbrev Slice (α : Type) := Option (List α)

/-- The elements of a slice, in order (what `range` iterates over). -/
def Slice.toList {α : Type} : Slice α → List α
  | none => []
  | some xs => xs

/-- Go `len(s)`. -/
def Slice.len {α : Type} (s : Slice α) : Nat := s.toList.length

/-- Go `append(s, x)`: the result is never nil. -/
def Slice.append {α : Type} (s : Slice α) (x : α) : Slice α :=
  some (s.toList ++ [x])

/-! ## Decimal formatting of integers (`%d`) -/

/-- The character of a decimal digit, `byte(d + '0')`. -/
def digitChar (d : Nat) : Char := Char.ofNat (48 + d)

/-- The digit loop of `strconv`: peel the last digit off `u` while `u >= 10`,
writing right to left in front of `acc`. -/
def formatBits : Nat → Nat → List Char → List Char
  | 0, u, acc => digitChar u :: acc
  | fuel + 1, u, acc =>
    if u ≥ 10 then formatBits fuel (u / 10) (digitChar (u % 10) :: acc)
    else digitChar u :: acc

/-- Decimal rendering of an unsigned number. -/
def formatUint (u : Nat) : List Char := formatBits u u []

/-- Decimal rendering of an integer, as `%d` prints it: a minus sign for a
negative number, then the digits of the magnitude. -/
def FormatInt (i : Int) : String :=
  if i < 0 then String.mk ('-' :: formatUint i.natAbs)
  else String.mk (formatUint i.natAbs)

/-! ## Data model -/

/-- The configuration (`type AppSettings struct`). -/
structure AppSettings where
  Paths : Slice String
  Domains : Slice String
deriving DecidableEq

/-- One result of a status request (`type URLStatus struct`). -/
structure URLStatus where
  URL : String
  Status : String
deriving DecidableEq

/-- The part of `http.Response` the program reads. -/
structure Response where
  StatusCode : Int
deriving DecidableEq

/-- What `client.Get(url)` returns: a response, or a non-nil error whose
`Error()` text is `msg`. -/
inductive GetResult where
  | resp (r : Response)
  | err (msg : String)
deriving DecidableEq

/-- The HTTP client over a network whose state is `σ`: a GET request to a URL
yields an outcome and the next state of the network.  The 800 ms timeout of the
client is part of it: a request that times out yields `GetResult.err`. -/
structure Client (σ : Type) where
  Get : σ → String → GetResult × σ

/-- The world a handler runs in. -/
structure World (σ : Type) where
  net : σ
  requests : List String
  stdout : List String

/-- `fmt.Println` of one already formatted line. -/
def World.println {σ : Type} (w : World σ) (line : String) : World σ :=
  { w with stdout := w.stdout ++ [line ++ "\n"] }

/-- One `client.Get(url)`: the request is recorded and the network answers. -/
def World.get {σ : Type} (client : Client σ) (w : World σ) (url : String) :
    GetResult × World σ :=
  let r := client.Get w.net url
  (r.1, { w with net := r.2, requests := w.requests ++ [url] })

/-! ## `checkURL` -/

/-- The function `checkURL` of `main.go`. -/
def checkURL {σ : Type} (client : Client σ) (url : String) (w : World σ) :
    String × World σ :=
  let w := w.println ("CHECKING: " ++ url)
  let r := w.get client url
  match r.1 with
  | GetResult.err e =>
    let w := r.2.println ("RETURNING: ERROR: " ++ e)
    ("ERROR: " ++ e, w)
  | GetResult.resp resp =>
    if resp.StatusCode ≥ 200 ∧ resp.StatusCode < 400 then
      ("OK", r.2.println "RETURNING: OK")
    else
      ("HTTP " ++ FormatInt resp.StatusCode,
        r.2.println ("RETURNING: HTTP " ++ FormatInt resp.StatusCode))

/-! ## The aggregation loop of `statusHandler` -/

/-- One iteration of the loop body of `statusHandler` for `path`. -/
def statusStep {σ : Type} (client : Client σ) (domain : String)
    (acc : Slice URLStatus × World σ) (path : String) : Slice URLStatus × World σ :=
  let fullURL := "https://" ++ domain ++ path
  let r := checkURL client fullURL acc.2
  (acc.1.append { URL := fullURL, Status := r.1 }, r.2)

/-- The loop `for _, path := range settings.Paths`, started with
`var statuses []URLStatus` (nil). -/
def statusLoop {σ : Type} (client : Client σ) (settings : AppSettings) (domain : String)
    (w : World σ) : Slice URLStatus × World σ :=
  settings.Paths.toList.foldl (statusStep client domain) (none, w)

/-! ## JSON encoding (`encoding/json`, as used by `json.NewEncoder(w).Encode`) -/

/-- The table `hex = "0123456789abcdef"`. -/
def hexChar (n : Nat) : Char :=
  if n < 10 then Char.ofNat (48 + n) else Char.ofNat (87 + n)

/-- The table `htmlSafeSet`: the ASCII characters written as they are, that is
all from the space on except the double quote, the backslash and `<`, `>`, `&`. -/
def htmlSafe (c : Char) : Bool :=
  decide (0x20 ≤ c.toNat) && decide (c.toNat < 0x80) && !(c == '"') && !(c == '\\')
    && !(c == '<') && !(c == '>') && !(c == '&')

/-- What the encoder writes for one character of a string (`appendString` with
HTML escaping, the default of an `Encoder`). -/
def appendChar (c : Char) : List Char :=
  if c.toNat < 0x80 then
    if htmlSafe c then [c]
    else if c = '\\' ∨ c = '"' then ['\\', c]
    else if c = Char.ofNat 8 then ['\\', 'b']
    else if c = Char.ofNat 12 then ['\\', 'f']
    else if c = '\n' then ['\\', 'n']
    else if c = '\r' then ['\\', 'r']
    else if c = '\t' then ['\\', 't']
    else ['\\', 'u', '0', '0', hexChar (c.toNat / 16), hexChar (c.toNat % 16)]
  else if c = Char.ofNat 0x2028 ∨ c = Char.ofNat 0x2029 then
    ['\\', 'u', '2', '0', '2', hexChar (c.toNat % 16)]
  else [c]

/-- The escaped characters of a string, without the surrounding quotes. -/
def appendChars : List Char → List Char
  | [] => []
  | c :: cs => appendChar c ++ appendChars cs

/-- A JSON string literal: `appendString`. -/
def appendString (s : String) : List Char :=
  '"' :: (appendChars s.data ++ ['"'])

/-- The elements of a JSON array, separated by commas. -/
def joinComma : List (List Char) → List Char
  | [] => []
  | [x] => x
  | x :: y :: rest => x ++ ',' :: joinComma (y :: rest)

/-- A slice is encoded as `null` when nil and as an array otherwise. -/
def encodeSlice {α : Type} (enc : α → List Char) : Slice α → List Char
  | none => "null".data
  | some xs => '[' :: (joinComma (xs.map enc) ++ [']'])

/-- Encoding of `URLStatus`, with the field names of its struct tags. -/
def encodeURLStatus (u : URLStatus) : List Char :=
  "\x7b\"url\":".data ++ appendString u.URL ++ ",\"status\":".data ++ appendString u.Status ++ ['}']

/-- Encoding of `AppSettings`, with the field names of its struct tags. -/
def encodeAppSettings (s : AppSettings) : List Char :=
  "\x7b\"paths\":".data ++ encodeSlice appendString s.Paths ++ ",\"domains\":".data
    ++ encodeSlice appendString s.Domains ++ ['}']

/-! ## `net/http`: request, response writer, `http.Error` -/

/-- The header map of a response. -/
abbrev Header := List (String × String)

/-- Go `h.Del(key)`. -/
def Header.Del (h : Header) (key : String) : Header :=
  h.filter (fun kv => kv.1 != key)

/-- Go `h.Set(key, value)`. -/
def Header.Set (h : Header) (key value : String) : Header :=
  Header.Del h key ++ [(key, value)]

/-- Go `h.Get(key)`: the empty string when the key is absent. -/
def Header.Get (h : Header) (key : String) : String :=
  (List.lookup key h).getD ""

/-- A recorded response: the header map under construction, the status line and
headers as they were sent (`none` until the header is written), and the body. -/
structure ResponseWriter where
  header : Header
  sent : Option (Nat × Header)
  body : String
deriving DecidableEq

/-- A response nothing has been written to. -/
def ResponseWriter.new : ResponseWriter := { header := [], sent := none, body := "" }

/-- Go `w.Header().Set(key, value)`. -/
def ResponseWriter.setHeader (w : ResponseWriter) (key value : String) : ResponseWriter :=
  { w with header := Header.Set w.header key value }

/-- Go `w.WriteHeader(code)`: sends the status line with the current headers;
a second call has no effect. -/
def ResponseWriter.WriteHeader (w : ResponseWriter) (code : Nat) : ResponseWriter :=
  match w.sent with
  | some _ => w
  | none => { w with sent := some (code, w.header) }

/-- Go `w.Write(data)`: writes the header with status 200 first when it has not
been written. -/
def ResponseWriter.Write (w : ResponseWriter) (data : String) : ResponseWriter :=
  let w := w.WriteHeader 200
  { w with body := w.body ++ data }

/-- The status code of the response, when the header has been written. -/
def ResponseWriter.status (w : ResponseWriter) : Option Nat := w.sent.map Prod.fst

/-- A header of the response as sent. -/
def ResponseWriter.sentHeader (w : ResponseWriter) (key : String) : Option String :=
  w.sent.map (fun p => Header.Get p.2 key)

/-- Go `http.Error(w, error, code)`. -/
def Error (w : ResponseWriter) (error : String) (code : Nat) : ResponseWriter :=
  let w := { w with header := Header.Del w.header "Content-Length" }
  let w := w.setHeader "Content-Type" "text/plain; charset=utf-8"
  let w := w.setHeader "X-Content-Type-Options" "nosniff"
  let w := w.WriteHeader code
  w.Write (error ++ "\n")

/-- The parsed query of a request, `r.URL.Query()`: for each key its values. -/
abbrev Values := List (String × List String)

/-- Go `v.Get(key)`: the first value of the key, the empty string without one. -/
def Values.Get (v : Values) (key : String) : String :=
  match (List.lookup key v).getD [] with
  | [] => ""
  | x :: _ => x

/-- The part of `http.Request` the handlers read. -/
structure Request where
  query : Values

/-! ## The handlers -/

/-- The function `statusHandler` of `main.go`. -/
def statusHandler {σ : Type} (client : Client σ) (settings : AppSettings)
    (w : ResponseWriter) (r : Request) (env : World σ) : ResponseWriter × World σ :=
  let domain := Values.Get r.query "domain"
  if domain = "" then
    (Error w "Missing domain parameter" 400, env)
  else
    let res := statusLoop client settings domain env
    let w := w.setHeader "Content-Type" "application/json"
    (w.Write (String.mk (encodeSlice encodeURLStatus res.1 ++ ['\n'])), res.2)

/-- The function `configHandler` of `main.go`. -/
def configHandler (settings : AppSettings) (w : ResponseWriter) (_r : Request) :
    ResponseWriter :=
  let w := w.setHeader "Content-Type" "application/json"
  w.Write (String.mk (encodeAppSettings settings ++ ['\n']))

/-! ## JSON decoding (`encoding/json`, as used by `json.NewDecoder(r).Decode`)

A model of the decoder after the documentation of `encoding/json`: the first
JSON value of the input is read (RFC 8259 syntax, white space allowed between
tokens) and stored into an `AppSettings`.  Object keys are matched with the
struct tags `paths` and `domains`, exactly or ignoring case; other keys are
skipped; `null` sets a slice to nil and leaves a string or the struct as it
is; an array is stored element by element over the slice, which is then cut
to the number of elements; any other value for a field is a type error.
The nesting limit of the real decoder is not modelled. -/

/-- A JSON value as read from the input. -/
inductive JValue where
  | null
  | bool (b : Bool)
  | number (lit : List Char)
  | string (s : List Char)
  | array (xs : List JValue)
  | object (kvs : List (List Char × JValue))

/-- JSON white space. -/
def isSpace (c : Char) : Bool := c == ' ' || c == '\t' || c == '\r' || c == '\n'

/-- Drop leading white space. -/
def skipSpace : List Char → List Char
  | [] => []
  | c :: cs => if isSpace c then skipSpace cs else c :: cs

/-- The value of a hexadecimal digit, in either case. -/
def hexVal (c : Char) : Option Nat :=
  if '0' ≤ c ∧ c ≤ '9' then some (c.toNat - 48)
  else if 'a' ≤ c ∧ c ≤ 'f' then some (c.toNat - 87)
  else if 'A' ≤ c ∧ c ≤ 'F' then some (c.toNat - 55)
  else none

/-- Go `getu4` after the `\u`: four hexadecimal digits as a number. -/
def readHex4 : List Char → Option (Nat × List Char)
  | a :: b :: c :: d :: rest =>
    match hexVal a, hexVal b, hexVal c, hexVal d with
    | some x, some y, some z, some t => some (((x * 16 + y) * 16 + z) * 16 + t, rest)
    | _, _, _, _ => none
  | _ => none

/-- The replacement character U+FFFD. -/
def replacementChar : Char := Char.ofNat 0xFFFD

/-- The escape `\uXXXX`, the input standing after the `u`: a code unit outside
the surrogate range is the character itself, a high surrogate followed by an
escaped low surrogate is the pair's character, any other surrogate is U+FFFD. -/
def readUnicode (cs : List Char) : Option (Char × List Char) :=
  match readHex4 cs with
  | none => none
  | some (r, rest) =>
    if 0xD800 ≤ r ∧ r < 0xE000 then
      match rest with
      | '\\' :: 'u' :: rest2 =>
        match readHex4 rest2 with
        | some (r2, rest3) =>
          if r < 0xDC00 ∧ 0xDC00 ≤ r2 ∧ r2 < 0xE000 then
            some (Char.ofNat ((r - 0xD800) * 0x400 + (r2 - 0xDC00) + 0x10000), rest3)
          else some (replacementChar, rest)
        | none => some (replacementChar, rest)
      | _ => some (replacementChar, rest)
    else some (Char.ofNat r, rest)

/-- One escape sequence, the input standing after the backslash. -/
def readEscape : List Char → Option (Char × List Char)
  | [] => none
  | c :: cs =>
    if c = '"' ∨ c = '\\' ∨ c = '/' then some (c, cs)
    else if c = 'b' then some (Char.ofNat 8, cs)
    else if c = 'f' then some (Char.ofNat 12, cs)
    else if c = 'n' then some ('\n', cs)
    else if c = 'r' then some ('\r', cs)
    else if c = 't' then some ('\t', cs)
    else if c = 'u' then readUnicode cs
    else none

/-- A string literal, the input standing after the opening quote: the decoded
characters and the input after the closing quote.  Control characters are not
allowed unescaped. -/
def readStringBody : Nat → List Char → Option (List Char × List Char)
  | 0, _ => none
  | _ + 1, [] => none
  | fuel + 1, c :: cs =>
    if c = '"' then some ([], cs)
    else if c = '\\' then
      match readEscape cs with
      | none => none
      | some (d, rest) => (readStringBody fuel rest).map (fun p => (d :: p.1, p.2))
    else if c.toNat < 0x20 then none
    else (readStringBody fuel cs).map (fun p => (c :: p.1, p.2))

/-- The input after the given word, when the input starts with it. -/
def readWord : List Char → List Char → Option (List Char)
  | [], cs => some cs
  | _ :: _, [] => none
  | w :: ws, c :: cs => if w = c then readWord ws cs else none

/-- The exponent of a number, optional. -/
def readExp (acc cs : List Char) : Option (List Char × List Char) :=
  match cs with
  | [] => some (acc, [])
  | e :: r =>
    if e = 'e' ∨ e = 'E' then
      let signed : List Char × List Char :=
        match r with
        | [] => ([], [])
        | c :: t => if c = '+' ∨ c = '-' then ([c], t) else ([], c :: t)
      let ds := signed.2.span Char.isDigit
      if ds.1 = [] then none else some (acc ++ e :: signed.1 ++ ds.1, ds.2)
    else some (acc, cs)

/-- The fraction of a number, optional, then the exponent. -/
def readFrac (acc cs : List Char) : Option (List Char × List Char) :=
  match cs with
  | [] => some (acc, [])
  | c :: r =>
    if c = '.' then
      let ds := r.span Char.isDigit
      if ds.1 = [] then none else readExp (acc ++ '.' :: ds.1) ds.2
    else readExp acc cs

/-- The digits of a number after the optional sign: `0` or a digit from 1 to 9
followed by digits. -/
def readInt (acc cs : List Char) : Option (List Char × List Char) :=
  match cs with
  | [] => none
  | c :: r =>
    if c = '0' then readFrac (acc ++ ['0']) r
    else if c.isDigit then
      let ds := r.span Char.isDigit
      readFrac (acc ++ c :: ds.1) ds.2
    else none

/-- A number literal. -/
def readNumber : List Char → Option (List Char × List Char)
  | [] => none
  | c :: r => if c = '-' then readInt ['-'] r else readInt [] (c :: r)

mutual
/-- One JSON value, after optional white space. -/
def readValue : Nat → List Char → Option (JValue × List Char)
  | 0, _ => none
  | fuel + 1, cs =>
    match skipSpace cs with
    | [] => none
    | c :: rest =>
      if c = '"' then
        (readStringBody rest.length rest).map (fun p => (JValue.string p.1, p.2))
      else if c = '[' then
        match skipSpace rest with
        | [] => none
        | d :: rest2 =>
          if d = ']' then some (JValue.array [], rest2)
          else (readElems fuel (d :: rest2)).map (fun p => (JValue.array p.1, p.2))
      else if c = '{' then
        match skipSpace rest with
        | [] => none
        | d :: rest2 =>
          if d = '}' then some (JValue.object [], rest2)
          else (readMembers fuel (d :: rest2)).map (fun p => (JValue.object p.1, p.2))
      else if c = 'n' then (readWord "ull".data rest).map (fun r => (JValue.null, r))
      else if c = 't' then (readWord "rue".data rest).map (fun r => (JValue.bool true, r))
      else if c = 'f' then (readWord "alse".data rest).map (fun r => (JValue.bool false, r))
      else (readNumber (c :: rest)).map (fun p => (JValue.number p.1, p.2))
/-- The elements of a non-empty array up to the closing bracket. -/
def readElems : Nat → List Char → Option (List JValue × List Char)
  | 0, _ => none
  | fuel + 1, cs =>
    match readValue fuel cs with
    | none => none
    | some (v, rest) =>
      match skipSpace rest with
      | [] => none
      | c :: rest2 =>
        if c = ',' then (readElems fuel rest2).map (fun p => (v :: p.1, p.2))
        else if c = ']' then some ([v], rest2)
        else none
/-- The members of a non-empty object up to the closing brace. -/
def readMembers : Nat → List Char → Option (List (List Char × JValue) × List Char)
  | 0, _ => none
  | fuel + 1, cs =>
    match skipSpace cs with
    | [] => none
    | q :: rest =>
      if q = '"' then
        match readStringBody rest.length rest with
        | none => none
        | some (key, rest2) =>
          match skipSpace rest2 with
          | [] => none
          | colon :: rest3 =>
            if colon = ':' then
              match readValue fuel rest3 with
              | none => none
              | some (v, rest4) =>
                match skipSpace rest4 with
                | [] => none
                | c :: rest5 =>
                  if c = ',' then
                    (readMembers fuel rest5).map (fun p => ((key, v) :: p.1, p.2))
                  else if c = '}' then some ([(key, v)], rest5)
                  else none
            else none
      else none
end

/-- Why a `Decode` fails: the input is not a JSON value (it is empty, cut short
or has an invalid character), or a value does not fit the Go type. -/
inductive DecodeError where
  | syntaxError
  | typeError
deriving DecidableEq

/-- A stand-in for the text of a decoding error (`err.Error()`); the wording of
the real messages is not reproduced. -/
def DecodeError.Error : DecodeError → String
  | DecodeError.syntaxError => "invalid JSON input"
  | DecodeError.typeError => "json: cannot unmarshal value into Go value"

/-- Case folding of a key character for the match with a field name: ASCII
letters to upper case, and the two non-ASCII characters that fold to an ASCII
letter (U+017F to `S`, U+212A to `K`). -/
def foldRune (c : Char) : Char :=
  if 'a' ≤ c ∧ c ≤ 'z' then Char.ofNat (c.toNat - 32)
  else if c = Char.ofNat 0x17F then 'S'
  else if c = Char.ofNat 0x212A then 'K'
  else c

/-- A key selects the field of the given name: an exact match or a match
ignoring case. -/
def keyMatches (key : List Char) (name : String) : Bool :=
  decide (key = name.data) || decide (key.map foldRune = name.data.map foldRune)

/-- A slice as the decoder sees it: the slice, and the elements its backing
array holds beyond the length of the slice (`spare`).  The decoder stores the
elements of an array over those the backing array holds, so what is held there
shows where an element is `null`. -/
structure Backed where
  slice : Slice String
  spare : List String
deriving DecidableEq

/-- The elements of the backing array, those of the slice first. -/
def Backed.backing (b : Backed) : List String := b.slice.toList ++ b.spare

/-- An array element stored into a `string` that holds `old`: a string literal
is the new value, `null` leaves the string as it is, anything else is a type
error. -/
def storeString (old : String) : JValue → Except DecodeError String
  | JValue.string s => Except.ok (String.mk s)
  | JValue.null => Except.ok old
  | _ => Except.error DecodeError.typeError

/-- The elements of an array stored one by one over the elements `backing` of
the backing array; where the backing array has no element a new one with the
zero value `""` is taken. -/
def storeStrings : List JValue → List String → Except DecodeError (List String)
  | [], _ => Except.ok []
  | v :: vs, backing =>
    match storeString (backing.head?.getD "") v with
    | Except.error e => Except.error e
    | Except.ok s =>
      match storeStrings vs backing.tail with
      | Except.error e => Except.error e
      | Except.ok ss => Except.ok (s :: ss)

/-- A value stored into a field of type `[]string`: `null` sets the slice to
nil; an empty array sets it to a new empty slice; an array with elements is
stored over the backing array and the slice is cut to the number of elements,
what the backing array holds beyond staying there; any other value is a type
error. -/
def storeSlice (v : JValue) (b : Backed) : Except DecodeError Backed :=
  match v with
  | JValue.null => Except.ok { slice := none, spare := [] }
  | JValue.array [] => Except.ok { slice := some [], spare := [] }
  | JValue.array (x :: xs) =>
    match storeStrings (x :: xs) b.backing with
    | Except.error e => Except.error e
    | Except.ok ss =>
      Except.ok { slice := some ss, spare := b.backing.drop (xs.length + 1) }
  | _ => Except.error DecodeError.typeError

/-- The target of a decoding: the two fields of an `AppSettings`. -/
structure Target where
  Paths : Backed
  Domains : Backed
deriving DecidableEq

/-- The target for a value whose slices fill their backing arrays, as those of
the zero value do. -/
def Target.ofSettings (s : AppSettings) : Target :=
  { Paths := { slice := s.Paths, spare := [] },
    Domains := { slice := s.Domains, spare := [] } }

/-- The value a target holds. -/
def Target.toSettings (t : Target) : AppSettings :=
  { Paths := t.Paths.slice, Domains := t.Domains.slice }

/-- The members of an object stored into the fields they select, in order. -/
def storeMembers : List (List Char × JValue) → Target → Except DecodeError Target
  | [], t => Except.ok t
  | (key, v) :: rest, t =>
    if keyMatches key "paths" then
      match storeSlice v t.Paths with
      | Except.error e => Except.error e
      | Except.ok p => storeMembers rest { t with Paths := p }
    else if keyMatches key "domains" then
      match storeSlice v t.Domains with
      | Except.error e => Except.error e
      | Except.ok d => storeMembers rest { t with Domains := d }
    else storeMembers rest t

/-- A value stored into an `AppSettings`. -/
def storeAppSettings : JValue → Target → Except DecodeError Target
  | JValue.null, t => Except.ok t
  | JValue.object kvs, t => storeMembers kvs t
  | _, _ => Except.error DecodeError.typeError

/-- Go `json.NewDecoder(r).Decode(&s)` on the input `input`, the target holding
`s` before the call: the new value of the target, or the error.  What follows
the first value is left unread.  The fuel of the reader is the length of the
input plus one. -/
def Decode (input : String) (s : AppSettings) : Except DecodeError AppSettings :=
  match readValue (input.data.length + 1) input.data with
  | none => Except.error DecodeError.syntaxError
  | some (v, _) =>
    match storeAppSettings v (Target.ofSettings s) with
    | Except.error e => Except.error e
    | Except.ok t => Except.ok t.toSettings

/-! ## Start-up: `loadSettings` and `main` -/

/-- The environment of the process: what `os.Open` answers for a file name (the
contents of the file, or the text of the error); what
`json.NewDecoder(file).Decode(&v)` answers for the contents of the file and the
value `v` held before the call (the value held after it, or the text of the
error); and the error with which `http.ListenAndServe` returns, `none` when it
serves until the process is killed. -/
structure Env where
  openFile : String → Except String String
  decode : String → AppSettings → Except String AppSettings
  listenError : Option String

/-- The decoder of an environment whose `encoding/json` is the model `Decode`. -/
def jsonDecode (file : String) (v : AppSettings) : Except String AppSettings :=
  match Decode file v with
  | Except.error err => Except.error err.Error
  | Except.ok s => Except.ok s

/-- The zero value of the package variable `var settings AppSettings`. -/
def zeroSettings : AppSettings := { Paths := none, Domains := none }

/-- A `panic(msg)`: it unwinds `main` and terminates the process with the
message. -/
structure Panic where
  message : String
deriving DecidableEq

/-- The function `loadSettings` of `main.go`, from the value of `settings`
before the call: the value after it, or the panic.  (The deferred
`file.Close()` has no effect on either.) -/
def loadSettings (env : Env) (settings : AppSettings) : Except Panic AppSettings :=
  match env.openFile "appsettings.json" with
  | Except.error err =>
    Except.error { message := "Error opening appsettings.json: " ++ err }
  | Except.ok file =>
    match env.decode file settings with
    | Except.error err =>
      Except.error { message := "Error decoding appsettings.json: " ++ err }
    | Except.ok s => Except.ok s

/-- The handler functions of `main.go`. -/
inductive HandlerFunc where
  | frontendHandler
  | statusHandler
  | configHandler
deriving DecidableEq

/-- What `main` does to the outside, step by step. -/
inductive Event where
  | handleFunc (pattern : String) (h : HandlerFunc)
  | println (line : String)
  | goOpenBrowser (delaySeconds : Nat) (url : String)
  | listenAndServe (addr : String)
deriving DecidableEq

/-- A run of `main`: the events in order, the configuration the handlers serve
(`none` when `loadSettings` did not return) and the panic that ended the run,
if any. -/
structure Run where
  events : List Event
  loaded : Option AppSettings
  panic : Option Panic
deriving DecidableEq

/-- The function `main` of `main.go`.  The goroutine that sleeps one second and
then calls `openBrowser` is recorded as one event when it is started. -/
def main (env : Env) : Run :=
  match loadSettings env zeroSettings with
  | Except.error p => { events := [], loaded := none, panic := some p }
  | Except.ok s =>
    let events := [
      Event.handleFunc "/" HandlerFunc.frontendHandler,
      Event.handleFunc "/status" HandlerFunc.statusHandler,
      Event.handleFunc "/config" HandlerFunc.configHandler,
      Event.println "Server running on http://localhost:8080\n",
      Event.goOpenBrowser 1 "http://localhost:8080",
      Event.listenAndServe ":8080"]
    match env.listenError with
    | none => { events := events, loaded := some s, panic := none }
    | some err =>
      { events := events ++ [Event.println ("Failed to start server: " ++ err ++ "\n")],
        loaded := some s, panic := none }

/-! ## Concrete inputs -/

/-- A world in which nothing has happened yet, over the network state `s`. -/
def world0 {σ : Type} (s : σ) : World σ := { net := s, requests := [], stdout := [] }

/-- A network in which every connection fails. -/
def deadClient : Client Unit :=
  { Get := fun _ u => (GetResult.err ("Get \"" ++ u ++ "\": dial tcp: no such host"), ()) }

/-- A network that answers `/health` with 200, `/login` with 503, `/old` with
a status line carrying the code `099`, and fails for every other URL; its
state counts the requests. -/
def demoClient : Client Nat :=
  { Get := fun n u =>
      if u = "https://example.com/health" then (GetResult.resp { StatusCode := 200 }, n + 1)
      else if u = "https://example.com/login" then (GetResult.resp { StatusCode := 503 }, n + 1)
      else if u = "https://example.com/old" then (GetResult.resp { StatusCode := 99 }, n + 1)
      else (GetResult.err "context deadline exceeded", n + 1) }

/-- A configuration with three paths, one of them repeated. -/
def demoSettings : AppSettings :=
  { Paths := some ["/health", "/login", "/health"], Domains := some ["example.com"] }

/-- A request to `/status?domain=example.com`. -/
def demoRequest : Request := { query := [("domain", ["example.com"])] }

/-- A request to `/status` without a query. -/
def bareRequest : Request := { query := [] }

/-- An environment whose `appsettings.json` has the given contents. -/
def envWithFile (contents : String) : Env :=
  { openFile := fun name =>
      if name = "appsettings.json" then Except.ok contents
      else Except.error ("open " ++ name ++ ": no such file or directory"),
    decode := jsonDecode,
    listenError := none }

/-- An environment without any file. -/
def envNoFile : Env :=
  { openFile := fun name => Except.error ("open " ++ name ++ ": no such file or directory"),
    decode := jsonDecode,
    listenError := none }

/-! ## Decimal formatting: lemmas -/

theorem digitChar_toNat (d : Nat) (h : d < 10) : (digitChar d).toNat - 48 = d := by
  interval_cases d <;> rfl

theorem digitChar_isDigit (d : Nat) (h : d < 10) : (digitChar d).isDigit = true := by
  interval_cases d <;> rfl

theorem digitChar_eq_core (d : Nat) (h : d < 10) : Nat.digitChar d = digitChar d := by
  interval_cases d <;> rfl

theorem formatBits_small (fuel u : Nat) (acc : List Char) (h : u < 10) (hf : u ≤ fuel) :
    formatBits fuel u acc = digitChar u :: acc := by
  cases fuel with
  | zero =>
    have : u = 0 := by omega
    subst this
    rfl
  | succ f =>
    have : ¬ u ≥ 10 := by omega
    simp [formatBits, this]

theorem formatBits_succ (f u : Nat) (acc : List Char) (h : 10 ≤ u) :
    formatBits (f + 1) u acc = formatBits f (u / 10) (digitChar (u % 10) :: acc) := by
  simp [formatBits, h]

theorem formatBits_acc (u : Nat) :
    ∀ (fuel : Nat) (acc : List Char), u ≤ fuel → formatBits fuel u acc = formatUint u ++ acc := by
  induction u using Nat.strong_induction_on with
  | _ u ih =>
    intro fuel acc hf
    by_cases hu : u < 10
    · rw [formatBits_small fuel u acc hu hf]
      unfold formatUint
      rw [formatBits_small u u [] hu (le_refl u)]
      rfl
    · obtain ⟨f, rfl⟩ : ∃ f, fuel = f + 1 := ⟨fuel - 1, by omega⟩
      obtain ⟨k, hk⟩ : ∃ k, u = k + 1 := ⟨u - 1, by omega⟩
      have hge : u ≥ 10 := by omega
      have hdiv : u / 10 < u := Nat.div_lt_self (by omega) (by omega)
      have h1 : formatBits (f + 1) u acc
          = formatBits f (u / 10) (digitChar (u % 10) :: acc) := formatBits_succ f u acc hge
      have h2 : formatUint u = formatBits k (u / 10) [digitChar (u % 10)] := by
        have h3 : formatBits u u [] = formatBits (k + 1) u [] := by rw [← hk]
        unfold formatUint
        rw [h3, formatBits_succ k u [] hge]
      rw [h1, h2, ih (u / 10) hdiv f _ (by omega), ih (u / 10) hdiv k _ (by omega)]
      simp

theorem formatUint_small (u : Nat) (h : u < 10) : formatUint u = [digitChar u] := by
  unfold formatUint
  exact formatBits_small u u [] h (le_refl u)

theorem formatUint_step (u : Nat) (h : 10 ≤ u) :
    formatUint u = formatUint (u / 10) ++ [digitChar (u % 10)] := by
  obtain ⟨k, hk⟩ : ∃ k, u = k + 1 := ⟨u - 1, by omega⟩
  have hdiv : u / 10 < u := Nat.div_lt_self (by omega) (by omega)
  have h2 : formatUint u = formatBits k (u / 10) [digitChar (u % 10)] := by
    have h3 : formatBits u u [] = formatBits (k + 1) u [] := by rw [← hk]
    unfold formatUint
    rw [h3, formatBits_succ k u [] h]
  rw [h2, formatBits_acc (u / 10) k _ (by omega)]

theorem formatUint_digits (u : Nat) : ∀ c ∈ formatUint u, c.isDigit = true := by
  induction u using Nat.strong_induction_on with
  | _ u ih =>
    intro c hc
    by_cases hu : u < 10
    · rw [formatUint_small u hu] at hc
      simp at hc
      subst hc
      exact digitChar_isDigit u hu
    · rw [formatUint_step u (by omega)] at hc
      rcases List.mem_append.mp hc with h | h
      · exact ih (u / 10) (Nat.div_lt_self (by omega) (by omega)) c h
      · simp at h
        subst h
        exact digitChar_isDigit _ (Nat.mod_lt _ (by omega))

theorem formatUint_value (u : Nat) :
    Nat.ofDigits 10 ((formatUint u).reverse.map (fun c => c.toNat - 48)) = u := by
  induction u using Nat.strong_induction_on with
  | _ u ih =>
    by_cases hu : u < 10
    · rw [formatUint_small u hu]
      simp [Nat.ofDigits, digitChar_toNat u hu]
    · rw [formatUint_step u (by omega)]
      have := ih (u / 10) (Nat.div_lt_self (by omega) (by omega))
      simp only [List.reverse_append, List.reverse_cons, List.reverse_nil, List.nil_append,
        List.singleton_append, List.map_cons, Nat.ofDigits_cons]
      rw [this, digitChar_toNat _ (Nat.mod_lt _ (by omega))]
      omega

theorem formatUint_injective (a b : Nat) (h : formatUint a = formatUint b) : a = b := by
  rw [← formatUint_value a, ← formatUint_value b, h]

theorem formatUint_three (u : Nat) (h1 : 100 ≤ u) (h2 : u ≤ 999) :
    formatUint u = [digitChar (u / 100), digitChar (u / 10 % 10), digitChar (u % 10)] := by
  rw [formatUint_step u (by omega), formatUint_step (u / 10) (by omega),
    formatUint_small (u / 10 / 10) (by omega)]
  have : u / 10 / 10 = u / 100 := by omega
  simp [this]

theorem formatUint_eq_toDigits (u : Nat) :
    ∀ (fuel : Nat) (acc : List Char), u < fuel →
      Nat.toDigitsCore 10 fuel u acc = formatUint u ++ acc := by
  induction u using Nat.strong_induction_on with
  | _ u ih =>
    intro fuel acc hf
    obtain ⟨f, rfl⟩ : ∃ f, fuel = f + 1 := ⟨fuel - 1, by omega⟩
    by_cases hu : u < 10
    · have hz : u / 10 = 0 := by omega
      have hm : u % 10 = u := by omega
      simp [Nat.toDigitsCore, hz, hm, formatUint_small u hu, digitChar_eq_core u hu]
    · have hz : ¬ u / 10 = 0 := by omega
      have hdiv : u / 10 < u := Nat.div_lt_self (by omega) (by omega)
      simp only [Nat.toDigitsCore, hz, if_false]
      rw [ih (u / 10) hdiv f _ (by omega), formatUint_step u (by omega),
        digitChar_eq_core _ (Nat.mod_lt _ (by omega))]
      simp

theorem formatUint_eq_repr (u : Nat) : String.mk (formatUint u) = Nat.repr u := by
  unfold Nat.repr Nat.toDigits
  rw [formatUint_eq_toDigits u (u + 1) [] (by omega)]
  simp [List.asString]

theorem FormatInt_eq_toString (i : Int) : FormatInt i = toString i := by
  cases i with
  | ofNat n =>
    have : ¬ (Int.ofNat n < 0) := by simp
    simp only [FormatInt, this, if_false, Int.natAbs_ofNat]
    rw [formatUint_eq_repr]
    rfl
  | negSucc n =>
    have : Int.negSucc n < 0 := Int.negSucc_lt_zero n
    simp only [FormatInt, this, if_true]
    show String.mk ('-' :: formatUint (n + 1)) = "-" ++ Nat.repr (n + 1)
    rw [← formatUint_eq_repr]
    rfl

theorem FormatInt_injective (a b : Int) (h : FormatInt a = FormatInt b) : a = b := by
  unfold FormatInt at h
  have key : ∀ (u : Nat) (l : List Char), formatUint u ≠ '-' :: l := by
    intro u l hul
    have := formatUint_digits u '-' (by rw [hul]; simp)
    exact absurd this (by decide)
  by_cases ha : a < 0 <;> by_cases hb : b < 0 <;> simp only [ha, hb, if_true, if_false] at h
  · have h' : formatUint a.natAbs = formatUint b.natAbs := by
      have := congrArg String.data h
      simpa using this
    have := formatUint_injective _ _ h'
    omega
  · have := congrArg String.data h
    exact absurd this.symm (key _ _)
  · have := congrArg String.data h
    exact absurd this (key _ _)
  · have h' : formatUint a.natAbs = formatUint b.natAbs := congrArg String.data h
    have := formatUint_injective _ _ h'
    omega

/-! ## `checkURL`: the three outcome classes -/

theorem checkURL_of_err {σ : Type} (client : Client σ) (url : String) (w : World σ)
    (e : String) (h : (client.Get w.net url).1 = GetResult.err e) :
    (checkURL client url w).1 = "ERROR: " ++ e := by
  simp only [checkURL, World.get, World.println, h]

theorem checkURL_of_resp {σ : Type} (client : Client σ) (url : String) (w : World σ)
    (r : Response) (h : (client.Get w.net url).1 = GetResult.resp r) :
    (checkURL client url w).1
      = if r.StatusCode ≥ 200 ∧ r.StatusCode < 400 then "OK"
        else "HTTP " ++ FormatInt r.StatusCode := by
  simp only [checkURL, World.get, World.println, h]
  split <;> rfl

theorem checkURL_requests {σ : Type} (client : Client σ) (url : String) (w : World σ) :
    (checkURL client url w).2.requests = w.requests ++ [url] := by
  simp only [checkURL, World.get, World.println]
  split
  · rfl
  · split <;> rfl

theorem data_append (a b : String) : (a ++ b).data = a.data ++ b.data := by
  simp

theorem hasPrefix_append (p t : String) : HasPrefix (p ++ t) p := by
  unfold HasPrefix
  rw [data_append]
  exact List.prefix_append _ _

theorem http_ne_ok (t : String) : "HTTP " ++ t ≠ "OK" := by
  intro h
  have := congrArg String.data h
  rw [data_append] at this
  simp at this

theorem error_ne_ok (t : String) : "ERROR: " ++ t ≠ "OK" := by
  intro h
  have := congrArg String.data h
  rw [data_append] at this
  simp at this

theorem http_not_error (t : String) : ¬ HasPrefix ("HTTP " ++ t) "ERROR: " := by
  unfold HasPrefix
  rw [data_append]
  rintro ⟨l, hl⟩
  simp at hl

theorem ok_not_error : ¬ HasPrefix "OK" "ERROR: " := by decide

theorem http_append_injective (a b : String) (h : "HTTP " ++ a = "HTTP " ++ b) : a = b := by
  have := congrArg String.data h
  rw [data_append, data_append] at this
  have h2 := List.append_cancel_left this
  exact String.ext h2

/-- C2: when the GET request yields a response with status code `c`, `checkURL`
returns exactly `"OK"` if `200 <= c < 400`, and otherwise exactly `"HTTP "`
followed by the decimal rendering of `c` (`FormatInt c`, which is the standard
rendering `toString c`). -/
theorem checkURL_classifies_response {σ : Type} (client : Client σ) (url : String)
    (w : World σ) (c : Int)
    (h : (client.Get w.net url).1 = GetResult.resp { StatusCode := c }) :
    ((200 ≤ c ∧ c < 400) → (checkURL client url w).1 = "OK") ∧
    (¬ (200 ≤ c ∧ c < 400) →
      (checkURL client url w).1 = "HTTP " ++ FormatInt c ∧
      (checkURL client url w).1 = "HTTP " ++ toString c) := by
  rw [checkURL_of_resp client url w _ h]
  constructor
  · intro hc
    simp [hc]
  · intro hc
    have hc2 : ¬ (c ≥ 200 ∧ c < 400) := hc
    simp only [hc2, if_false, FormatInt_eq_toString, and_self]

theorem checkURL_classifies_response_witness :
    (checkURL demoClient "https://example.com/health" (world0 0)).1 = "OK" ∧
    (checkURL demoClient "https://example.com/login" (world0 0)).1 = "HTTP 503" ∧
    (checkURL demoClient "https://example.com/old" (world0 0)).1 = "HTTP 99" :=
  ⟨(checkURL_classifies_response demoClient "https://example.com/health" (world0 0) 200
      (by decide)).1 (by decide),
   ((checkURL_classifies_response demoClient "https://example.com/login" (world0 0) 503
      (by decide)).2 (by decide)).1,
   ((checkURL_classifies_response demoClient "https://example.com/old" (world0 0) 99
      (by decide)).2 (by decide)).1⟩

/-- C3: when the GET request fails at transport level with an error whose
description is `e`, `checkURL` returns exactly `"ERROR: "` followed by `e`; the
result begins with `"ERROR: "` and is neither `"OK"` nor an `"HTTP "` status. -/
theorem checkURL_transport_error {σ : Type} (client : Client σ) (url : String)
    (w : World σ) (e : String) (h : (client.Get w.net url).1 = GetResult.err e) :
    (checkURL client url w).1 = "ERROR: " ++ e ∧
    HasPrefix (checkURL client url w).1 "ERROR: " ∧
    (checkURL client url w).1 ≠ "OK" ∧
    ¬ HasPrefix (checkURL client url w).1 "HTTP " := by
  rw [checkURL_of_err client url w e h]
  refine ⟨rfl, hasPrefix_append _ _, error_ne_ok e, ?_⟩
  unfold HasPrefix
  rw [data_append]
  rintro ⟨l, hl⟩
  simp at hl

theorem checkURL_transport_error_witness :
    (checkURL demoClient "https://example.com/x" (world0 0)).1
      = "ERROR: context deadline exceeded" ∧
    HasPrefix (checkURL demoClient "https://example.com/x" (world0 0)).1 "ERROR: " :=
  ⟨(checkURL_transport_error demoClient "https://example.com/x" (world0 0)
      "context deadline exceeded" (by decide)).1,
   (checkURL_transport_error demoClient "https://example.com/x" (world0 0)
      "context deadline exceeded" (by decide)).2.1⟩

/-- C9 as stated fails: a response whose status line carries the code `099`
has status code 99, and `checkURL` returns `"HTTP 99"`, which is not `"OK"`,
not `"HTTP "` followed by exactly three decimal digits, and does not begin
with `"ERROR: "`. -/
theorem checkURL_two_digit_code :
    (checkURL demoClient "https://example.com/old" (world0 0)).1 = "HTTP 99" ∧
    ¬ ((checkURL demoClient "https://example.com/old" (world0 0)).1 = "OK" ∨
       (∃ t : List Char,
          (checkURL demoClient "https://example.com/old" (world0 0)).1 = "HTTP " ++ String.mk t ∧
          t.length = 3 ∧ ∀ c ∈ t, c.isDigit = true) ∨
       HasPrefix (checkURL demoClient "https://example.com/old" (world0 0)).1 "ERROR: ") := by
  have h : (checkURL demoClient "https://example.com/old" (world0 0)).1 = "HTTP 99" := by
    decide
  refine ⟨h, ?_⟩
  rw [h]
  rintro (h1 | ⟨t, ht, hlen, _⟩ | h3)
  · exact absurd h1 (by decide)
  · have h2 : ("HTTP " ++ "99" : String) = "HTTP " ++ String.mk t := ht
    have h4 := http_append_injective _ _ h2
    have h5 : t = ['9', '9'] := (congrArg String.data h4).symm
    rw [h5] at hlen
    exact absurd hlen (by decide)
  · exact absurd h3 (by decide)

/-- C9, amended: for every outcome of the GET request the status returned by
`checkURL` is the literal `"OK"` (a response with code in `[200, 400)`), or
`"HTTP "` followed by the decimal rendering of the code of a response outside
that range, which is exactly three decimal digits whenever the code is between
100 and 999, or `"ERROR: "` followed by the description of the transport
error. -/
theorem checkURL_status_shape {σ : Type} (client : Client σ) (url : String) (w : World σ) :
    ((checkURL client url w).1 = "OK" ∧
      ∃ r, (client.Get w.net url).1 = GetResult.resp r ∧
        200 ≤ r.StatusCode ∧ r.StatusCode < 400) ∨
    (∃ r, (client.Get w.net url).1 = GetResult.resp r ∧
      ¬ (200 ≤ r.StatusCode ∧ r.StatusCode < 400) ∧
      (checkURL client url w).1 = "HTTP " ++ FormatInt r.StatusCode ∧
      (100 ≤ r.StatusCode → r.StatusCode ≤ 999 →
        ∃ x y z : Char, FormatInt r.StatusCode = String.mk [x, y, z] ∧
          x.isDigit = true ∧ y.isDigit = true ∧ z.isDigit = true)) ∨
    (∃ e, (client.Get w.net url).1 = GetResult.err e ∧
      (checkURL client url w).1 = "ERROR: " ++ e) := by
  cases h : (client.Get w.net url).1 with
  | err e =>
    right; right
    exact ⟨e, rfl, checkURL_of_err client url w e h⟩
  | resp r =>
    rw [checkURL_of_resp client url w r h]
    by_cases hc : r.StatusCode ≥ 200 ∧ r.StatusCode < 400
    · left
      exact ⟨by simp [hc], r, rfl, hc.1, hc.2⟩
    · right; left
      refine ⟨r, rfl, hc, by simp only [hc, if_false], ?_⟩
      intro h1 h2
      have hn : ¬ r.StatusCode < 0 := by omega
      have h3 := formatUint_three r.StatusCode.natAbs (by omega) (by omega)
      refine ⟨digitChar (r.StatusCode.natAbs / 100), digitChar (r.StatusCode.natAbs / 10 % 10),
        digitChar (r.StatusCode.natAbs % 10), ?_, digitChar_isDigit _ ?_, digitChar_isDigit _ ?_,
        digitChar_isDigit _ ?_⟩
      · simp only [FormatInt, hn, if_false]
        rw [h3]
      · omega
      · omega
      · omega

/-- C10: the outcome classes of `checkURL` are never confused.  The result is
`"OK"` exactly when a response with code in `[200, 400)` was received; it
begins with `"ERROR: "` exactly when the request failed at transport level;
and two responses with distinct codes outside `[200, 400)` give distinct
status strings. -/
theorem checkURL_classes_distinct {σ τ : Type} (client : Client σ) (url : String)
    (w : World σ) (client2 : Client τ) (url2 : String) (w2 : World τ) :
    ((checkURL client url w).1 = "OK" ↔
      ∃ r, (client.Get w.net url).1 = GetResult.resp r ∧
        200 ≤ r.StatusCode ∧ r.StatusCode < 400) ∧
    (HasPrefix (checkURL client url w).1 "ERROR: " ↔
      ∃ e, (client.Get w.net url).1 = GetResult.err e) ∧
    (∀ r1 r2, (client.Get w.net url).1 = GetResult.resp r1 →
      (client2.Get w2.net url2).1 = GetResult.resp r2 →
      ¬ (200 ≤ r1.StatusCode ∧ r1.StatusCode < 400) →
      ¬ (200 ≤ r2.StatusCode ∧ r2.StatusCode < 400) →
      r1.StatusCode ≠ r2.StatusCode →
      (checkURL client url w).1 ≠ (checkURL client2 url2 w2).1) := by
  refine ⟨?_, ?_, ?_⟩
  · cases h : (client.Get w.net url).1 with
    | err e =>
      rw [checkURL_of_err client url w e h]
      constructor
      · intro h1
        exact absurd h1 (error_ne_ok e)
      · rintro ⟨r, hr, _⟩
        exact absurd hr (by simp)
    | resp r =>
      rw [checkURL_of_resp client url w r h]
      by_cases hc : r.StatusCode ≥ 200 ∧ r.StatusCode < 400
      · simp only [hc, and_self, if_true, true_iff]
        exact ⟨r, rfl, hc.1, hc.2⟩
      · simp only [hc, if_false]
        constructor
        · intro h1
          exact absurd h1 (http_ne_ok _)
        · rintro ⟨r', hr', h1, h2⟩
          have : r = r' := by injection hr'
          subst this
          exact absurd ⟨h1, h2⟩ hc
  · cases h : (client.Get w.net url).1 with
    | err e =>
      rw [checkURL_of_err client url w e h]
      exact ⟨fun _ => ⟨e, rfl⟩, fun _ => hasPrefix_append _ _⟩
    | resp r =>
      rw [checkURL_of_resp client url w r h]
      constructor
      · intro h1
        by_cases hc : r.StatusCode ≥ 200 ∧ r.StatusCode < 400
        · simp only [hc, and_self, if_true] at h1
          exact absurd h1 ok_not_error
        · simp only [hc, if_false] at h1
          exact absurd h1 (http_not_error _)
      · rintro ⟨e, he⟩
        exact absurd he (by simp)
  · intro r1 r2 h1 h2 hc1 hc2 hne heq
    rw [checkURL_of_resp client url w r1 h1, checkURL_of_resp client2 url2 w2 r2 h2] at heq
    have hc1' : ¬ (r1.StatusCode ≥ 200 ∧ r1.StatusCode < 400) := hc1
    have hc2' : ¬ (r2.StatusCode ≥ 200 ∧ r2.StatusCode < 400) := hc2
    simp only [hc1', hc2', if_false] at heq
    exact hne (FormatInt_injective _ _ (http_append_injective _ _ heq))

theorem checkURL_classes_distinct_witness :
    (checkURL demoClient "https://example.com/login" (world0 0)).1
      ≠ (checkURL demoClient "https://example.com/old" (world0 7)).1 :=
  (checkURL_classes_distinct demoClient "https://example.com/login" (world0 0)
    demoClient "https://example.com/old" (world0 7)).2.2
    { StatusCode := 503 } { StatusCode := 99 } (by decide) (by decide) (by decide) (by decide)
    (by decide)

/-! ## The aggregation loop and `statusHandler` -/

theorem Slice.toList_append {α : Type} (s : Slice α) (x : α) :
    (s.append x).toList = s.toList ++ [x] := rfl

theorem statusStep_fst {σ : Type} (client : Client σ) (d : String)
    (acc : Slice URLStatus × World σ) (q : String) :
    (statusStep client d acc q).1.toList =
      acc.1.toList ++ [({ URL := "https://" ++ d ++ q,
                          Status := (checkURL client ("https://" ++ d ++ q) acc.2).1 } : URLStatus)] :=
  rfl

theorem statusStep_snd {σ : Type} (client : Client σ) (d : String)
    (acc : Slice URLStatus × World σ) (q : String) :
    (statusStep client d acc q).2 = (checkURL client ("https://" ++ d ++ q) acc.2).2 := rfl

theorem statusLoop_foldl {σ : Type} (client : Client σ) (d : String) (w : World σ) :
    ∀ ps : List String,
      (ps.foldl (statusStep client d) (none, w)).1.toList.length = ps.length ∧
      (∀ (i : Nat) (p : String), ps[i]? = some p →
        (ps.foldl (statusStep client d) (none, w)).1.toList[i]? =
          some ({ URL := "https://" ++ d ++ p,
                  Status := (checkURL client ("https://" ++ d ++ p)
                    ((ps.take i).foldl (statusStep client d) (none, w)).2).1 } : URLStatus)) ∧
      (ps.foldl (statusStep client d) (none, w)).2.requests =
        w.requests ++ ps.map (fun p => "https://" ++ d ++ p) := by
  intro ps
  induction ps using List.reverseRecOn with
  | nil =>
    refine ⟨rfl, ?_, ?_⟩
    · intro i p h
      simp at h
    · simp
  | append_singleton ps q ih =>
    obtain ⟨ih1, ih2, ih3⟩ := ih
    simp only [List.foldl_append, List.foldl_cons, List.foldl_nil]
    refine ⟨?_, ?_, ?_⟩
    · rw [statusStep_fst]
      simp [ih1]
    · intro i p h
      by_cases hi : i < ps.length
      · rw [List.getElem?_append_left hi] at h
        have h1 := ih2 i p h
        rw [List.take_append_of_le_length (le_of_lt hi), statusStep_fst]
        rw [List.getElem?_append_left (by rw [ih1]; exact hi)]
        exact h1
      · have hlen : i < (ps ++ [q]).length := by
          rcases List.getElem?_eq_some.mp h with ⟨hl, _⟩
          exact hl
        have hi2 : i = ps.length := by
          simp at hlen
          omega
        subst hi2
        have hq : q = p := by simpa using h
        subst hq
        rw [statusStep_fst, List.take_left' rfl]
        have h5 := ih1
        generalize (List.foldl (statusStep client d) (none, w) ps) = acc at h5 ⊢
        rw [← h5]
        simp
    · rw [statusStep_snd, checkURL_requests, ih3]
      simp

theorem statusHandler_of_domain {σ : Type} (client : Client σ) (settings : AppSettings)
    (rw : ResponseWriter) (r : Request) (w : World σ)
    (h : Values.Get r.query "domain" ≠ "") :
    statusHandler client settings rw r w =
      ((rw.setHeader "Content-Type" "application/json").Write
          (String.mk (encodeSlice encodeURLStatus
            (statusLoop client settings (Values.Get r.query "domain") w).1 ++ ['\n'])),
        (statusLoop client settings (Values.Get r.query "domain") w).2) := by
  simp only [statusHandler, h, if_false]

theorem statusHandler_of_missing {σ : Type} (client : Client σ) (settings : AppSettings)
    (rw : ResponseWriter) (r : Request) (w : World σ)
    (h : Values.Get r.query "domain" = "") :
    statusHandler client settings rw r w = (Error rw "Missing domain parameter" 400, w) := by
  simp only [statusHandler, h, if_true]

/-- C1: for every non-empty domain `d` and every configured path list, the loop
of `statusHandler` produces exactly one result per path; the `i`-th result has
the URL `"https://" ++ d ++ p_i` and the status `checkURL` returned for that
URL in the world left by the first `i` checks; the GET requests issued are
exactly those URLs in configured order; and the handler writes the encoding
of these results. -/
theorem statusLoop_results {σ : Type} (client : Client σ) (settings : AppSettings)
    (d : String) (w : World σ) (hd : d ≠ "") :
    (statusLoop client settings d w).1.len = settings.Paths.len ∧
    (∀ (i : Nat) (p : String), settings.Paths.toList[i]? = some p →
      (statusLoop client settings d w).1.toList[i]? =
        some ({ URL := "https://" ++ d ++ p,
                Status := (checkURL client ("https://" ++ d ++ p)
                  (statusLoop client
                    { settings with Paths := some (settings.Paths.toList.take i) } d w).2).1 }
              : URLStatus)) ∧
    (statusLoop client settings d w).2.requests =
      w.requests ++ settings.Paths.toList.map (fun p => "https://" ++ d ++ p) ∧
    (∀ (rw : ResponseWriter) (r : Request), Values.Get r.query "domain" = d →
      statusHandler client settings rw r w =
        ((rw.setHeader "Content-Type" "application/json").Write
            (String.mk (encodeSlice encodeURLStatus (statusLoop client settings d w).1 ++ ['\n'])),
          (statusLoop client settings d w).2)) := by
  obtain ⟨h1, h2, h3⟩ := statusLoop_foldl client d w settings.Paths.toList
  refine ⟨h1, h2, h3, ?_⟩
  intro rw r hr
  subst hr
  exact statusHandler_of_domain client settings rw r w hd

theorem statusLoop_results_witness :
    (statusLoop demoClient demoSettings "example.com" (world0 0)).1 =
      some [{ URL := "https://example.com/health", Status := "OK" },
            { URL := "https://example.com/login", Status := "HTTP 503" },
            { URL := "https://example.com/health", Status := "OK" }] ∧
    (statusLoop demoClient demoSettings "example.com" (world0 0)).1.len = 3 ∧
    (statusLoop demoClient demoSettings "example.com" (world0 0)).2.requests =
      ["https://example.com/health", "https://example.com/login",
       "https://example.com/health"] :=
  ⟨by decide,
   (statusLoop_results demoClient demoSettings "example.com" (world0 0) (by decide)).1,
   (statusLoop_results demoClient demoSettings "example.com" (world0 0) (by decide)).2.2.1⟩

theorem Values.Get_eq_empty_iff (v : Values) (key : String) :
    Values.Get v key = "" ↔
      (List.lookup key v = none ∨ List.lookup key v = some [] ∨
        ∃ vs, List.lookup key v = some ("" :: vs)) := by
  unfold Values.Get
  cases h : List.lookup key v with
  | none => simp
  | some vs =>
    cases vs with
    | nil => simp
    | cons x xs => simp

theorem write_new_status (data : String) :
    ((ResponseWriter.new.setHeader "Content-Type" "application/json").Write data) =
      { header := [("Content-Type", "application/json")],
        sent := some (200, [("Content-Type", "application/json")]),
        body := data } := by
  simp [ResponseWriter.Write, ResponseWriter.WriteHeader, ResponseWriter.setHeader,
    ResponseWriter.new, Header.Set, Header.Del]

theorem error_new :
    Error ResponseWriter.new "Missing domain parameter" 400 =
      { header := [("Content-Type", "text/plain; charset=utf-8"),
                   ("X-Content-Type-Options", "nosniff")],
        sent := some (400, [("Content-Type", "text/plain; charset=utf-8"),
                            ("X-Content-Type-Options", "nosniff")]),
        body := "Missing domain parameter\n" } := by
  decide

/-- C4: a request to `/status` whose `domain` parameter is absent or empty is
answered with status 400, content type `text/plain` and the body
`"Missing domain parameter\n"`; the world is left as it was (no URL is checked,
nothing is printed) and no JSON is written; and the status is 400 only in that
case. -/
theorem statusHandler_missing_domain {σ : Type} (client : Client σ) (settings : AppSettings)
    (r : Request) (w : World σ) :
    (Values.Get r.query "domain" = "" ↔
      (List.lookup "domain" r.query = none ∨ List.lookup "domain" r.query = some [] ∨
        ∃ vs, List.lookup "domain" r.query = some ("" :: vs))) ∧
    ((statusHandler client settings ResponseWriter.new r w).1.status = some 400 ↔
      Values.Get r.query "domain" = "") ∧
    (Values.Get r.query "domain" = "" →
      statusHandler client settings ResponseWriter.new r w =
        ({ header := [("Content-Type", "text/plain; charset=utf-8"),
                      ("X-Content-Type-Options", "nosniff")],
           sent := some (400, [("Content-Type", "text/plain; charset=utf-8"),
                               ("X-Content-Type-Options", "nosniff")]),
           body := "Missing domain parameter\n" }, w)) := by
  refine ⟨Values.Get_eq_empty_iff _ _, ?_, ?_⟩
  · by_cases h : Values.Get r.query "domain" = ""
    · rw [statusHandler_of_missing client settings _ r w h, error_new]
      simp [h, ResponseWriter.status]
    · rw [statusHandler_of_domain client settings _ r w h, write_new_status]
      simp [h, ResponseWriter.status]
  · intro h
    rw [statusHandler_of_missing client settings _ r w h, error_new]

theorem statusHandler_missing_domain_witness :
    (statusHandler demoClient demoSettings ResponseWriter.new bareRequest (world0 0)).1.status
      = some 400 ∧
    (statusHandler demoClient demoSettings ResponseWriter.new
      { query := [("domain", [""])] } (world0 0)).1.body = "Missing domain parameter\n" ∧
    (statusHandler demoClient demoSettings ResponseWriter.new
      { query := [("domain", [""])] } (world0 0)).2.requests = [] :=
  ⟨(statusHandler_missing_domain demoClient demoSettings bareRequest (world0 0)).2.1.mpr
      (by decide),
   by rw [(statusHandler_missing_domain demoClient demoSettings
      { query := [("domain", [""])] } (world0 0)).2.2 (by decide)],
   by rw [(statusHandler_missing_domain demoClient demoSettings
      { query := [("domain", [""])] } (world0 0)).2.2 (by decide)]; rfl⟩

/-- C5 fails on the code: with a non-empty domain and no configured path the
slice `statuses` is still nil when it is encoded, so the response has status
200 and content type `application/json`, but its body is `null` followed by a
newline, not `[]`. -/
theorem statusHandler_no_paths_body :
    statusHandler deadClient { Paths := some [], Domains := some ["example.com"] }
        ResponseWriter.new demoRequest (world0 ()) =
      ({ header := [("Content-Type", "application/json")],
         sent := some (200, [("Content-Type", "application/json")]),
         body := "null\n" }, world0 ()) ∧
    (statusHandler deadClient { Paths := none, Domains := none }
        ResponseWriter.new demoRequest (world0 ())).1.body = "null\n" := by
  constructor
  · rw [statusHandler_of_domain _ _ _ _ _ (by decide), write_new_status]
    rfl
  · rw [statusHandler_of_domain _ _ _ _ _ (by decide), write_new_status]
    rfl

/-! ## Start-up -/

/-- C8: when `appsettings.json` cannot be opened, or its contents cannot be
decoded, `loadSettings` panics with a message that names the failure, and
`main` ends with that panic without any event (no route registered, no browser
launch started, no listener); when both succeed `loadSettings` returns, the
settings are exactly the decoded value and `main` goes on to register the
routes and to listen. -/
theorem loadSettings_fail_fast (env : Env) (s : AppSettings) :
    (∀ err, env.openFile "appsettings.json" = Except.error err →
      loadSettings env s =
        Except.error { message := "Error opening appsettings.json: " ++ err } ∧
      main env = { events := [], loaded := none,
                   panic := some { message := "Error opening appsettings.json: " ++ err } }) ∧
    (∀ file err, env.openFile "appsettings.json" = Except.ok file →
      env.decode file s = Except.error err →
      loadSettings env s =
        Except.error { message := "Error decoding appsettings.json: " ++ err }) ∧
    (∀ file err, env.openFile "appsettings.json" = Except.ok file →
      env.decode file zeroSettings = Except.error err →
      main env = { events := [], loaded := none,
                   panic := some { message := "Error decoding appsettings.json: " ++ err } }) ∧
    (∀ file s', env.openFile "appsettings.json" = Except.ok file →
      env.decode file s = Except.ok s' → loadSettings env s = Except.ok s') ∧
    (∀ file s', env.openFile "appsettings.json" = Except.ok file →
      env.decode file zeroSettings = Except.ok s' →
      (main env).panic = none ∧ (main env).loaded = some s' ∧
      Event.handleFunc "/status" HandlerFunc.statusHandler ∈ (main env).events ∧
      Event.listenAndServe ":8080" ∈ (main env).events) := by
  refine ⟨?_, ?_, ?_, ?_, ?_⟩
  · intro err h
    simp only [main, loadSettings, h, and_self]
  · intro file err h hd
    simp only [loadSettings, h, hd]
  · intro file err h hd
    simp only [main, loadSettings, h, hd]
  · intro file s' h hd
    simp only [loadSettings, h, hd]
  · intro file s' h hd
    simp only [main, loadSettings, h, hd]
    cases env.listenError <;> simp

theorem loadSettings_fail_fast_witness :
    main envNoFile =
      { events := [], loaded := none,
        panic := some { message :=
          "Error opening appsettings.json: " ++
            "open appsettings.json: no such file or directory" } } ∧
    main (envWithFile "\x7b\"paths\":[\"/health\"],\"domains\":[\"example.com\"") =
      { events := [], loaded := none,
        panic := some { message :=
          "Error decoding appsettings.json: " ++ DecodeError.syntaxError.Error } } ∧
    loadSettings (envWithFile "\x7b\"paths\":[\"/health\"],\"domains\":[\"example.com\"]\x7d")
        zeroSettings =
      Except.ok { Paths := some ["/health"], Domains := some ["example.com"] } :=
  ⟨((loadSettings_fail_fast envNoFile zeroSettings).1
      "open appsettings.json: no such file or directory" rfl).2,
   (loadSettings_fail_fast
      (envWithFile "\x7b\"paths\":[\"/health\"],\"domains\":[\"example.com\"") zeroSettings).2.2.1
      "\x7b\"paths\":[\"/health\"],\"domains\":[\"example.com\"" DecodeError.syntaxError.Error
      rfl rfl,
   (loadSettings_fail_fast
      (envWithFile "\x7b\"paths\":[\"/health\"],\"domains\":[\"example.com\"]\x7d")
      zeroSettings).2.2.2.1
      "\x7b\"paths\":[\"/health\"],\"domains\":[\"example.com\"]\x7d"
      { Paths := some ["/health"], Domains := some ["example.com"] } rfl rfl⟩

/-! ## JSON: decoding what the encoder writes -/

theorem hexVal_hexChar (n : Nat) (h : n < 16) : hexVal (hexChar n) = some n := by
  interval_cases n <;> decide

theorem readStringBody_plain (c : Char) (tail : List Char) (fuel : Nat)
    (h1 : c ≠ '"') (h2 : c ≠ '\\') (h3 : ¬ c.toNat < 0x20) :
    readStringBody (fuel + 1) (c :: tail) =
      (readStringBody fuel tail).map (fun p => (c :: p.1, p.2)) := by
  simp only [readStringBody, h1, h2, h3, if_false]

theorem readStringBody_escape (d : Char) (cs tail : List Char) (fuel : Nat)
    (h : readEscape cs = some (d, tail)) :
    readStringBody (fuel + 1) ('\\' :: cs) =
      (readStringBody fuel tail).map (fun p => (d :: p.1, p.2)) := by
  have h1 : ¬ ('\\' = '"') := by decide
  simp only [readStringBody, h1, if_false, if_true, h]

theorem readEscape_u00 (c : Char) (tail : List Char) (h : c.toNat < 0x80) :
    readEscape ('u' :: '0' :: '0' :: hexChar (c.toNat / 16) :: hexChar (c.toNat % 16) :: tail)
      = some (c, tail) := by
  have e1 : hexVal '0' = some 0 := by decide
  have e2 := hexVal_hexChar (c.toNat / 16) (by omega)
  have e3 := hexVal_hexChar (c.toNat % 16) (by omega)
  have e4 : (0 * 16 + 0) * 16 + c.toNat / 16 = c.toNat / 16 := by omega
  have e5 : ¬ (0xD800 ≤ (c.toNat / 16) * 16 + c.toNat % 16 ∧
      (c.toNat / 16) * 16 + c.toNat % 16 < 0xE000) := by omega
  have e6 : (c.toNat / 16) * 16 + c.toNat % 16 = c.toNat := by omega
  have n1 : ¬ ('u' = '"' ∨ 'u' = '\\' ∨ 'u' = '/') := by decide
  have n2 : ¬ ('u' = 'b') := by decide
  have n3 : ¬ ('u' = 'f') := by decide
  have n4 : ¬ ('u' = 'n') := by decide
  have n5 : ¬ ('u' = 'r') := by decide
  have n6 : ¬ ('u' = 't') := by decide
  simp only [readEscape, n1, n2, n3, n4, n5, n6, if_false, if_true, readUnicode, readHex4,
    e1, e2, e3, e4, e5]
  rw [e6, Char.ofNat_toNat]

theorem readStringBody_appendChar (c : Char) (tail : List Char) (fuel : Nat) :
    readStringBody (fuel + 1) (appendChar c ++ tail) =
      (readStringBody fuel tail).map (fun p => (c :: p.1, p.2)) := by
  unfold appendChar
  by_cases h1 : c.toNat < 0x80
  · simp only [h1, if_true]
    by_cases h2 : htmlSafe c = true
    · simp only [h2, if_true, List.singleton_append]
      simp only [htmlSafe, Bool.and_eq_true, decide_eq_true_eq, Bool.not_eq_true',
        beq_eq_false_iff_ne, ne_eq] at h2
      exact readStringBody_plain c tail fuel h2.1.1.1.1.2 h2.1.1.1.2 (by omega)
    · simp only [h2]
      by_cases h3 : c = '\\' ∨ c = '"'
      · simp only [h3, if_true]
        apply readStringBody_escape
        rcases h3 with h3 | h3 <;> subst h3 <;> rfl
      · simp only [h3, if_false]
        by_cases h4 : c = Char.ofNat 8
        · subst h4
          exact readStringBody_escape _ _ _ _ rfl
        · simp only [h4, if_false]
          by_cases h5 : c = Char.ofNat 12
          · subst h5
            exact readStringBody_escape _ _ _ _ rfl
          · simp only [h5, if_false]
            by_cases h6 : c = '\n'
            · subst h6
              exact readStringBody_escape _ _ _ _ rfl
            · simp only [h6, if_false]
              by_cases h7 : c = '\r'
              · subst h7
                exact readStringBody_escape _ _ _ _ rfl
              · simp only [h7, if_false]
                by_cases h8 : c = '\t'
                · subst h8
                  exact readStringBody_escape _ _ _ _ rfl
                · simp only [h8, if_false]
                  exact readStringBody_escape _ _ _ _ (readEscape_u00 c tail h1)
  · simp only [h1, if_false]
    by_cases h2 : c = Char.ofNat 0x2028 ∨ c = Char.ofNat 0x2029
    · simp only [h2, if_true]
      apply readStringBody_escape
      rcases h2 with h2 | h2 <;> subst h2 <;> rfl
    · simp only [h2, if_false, List.singleton_append]
      refine readStringBody_plain c tail fuel ?_ ?_ (by omega)
      · intro h
        subst h
        exact h1 (by decide)
      · intro h
        subst h
        exact h1 (by decide)

theorem appendChar_length (c : Char) : 1 ≤ (appendChar c).length := by
  unfold appendChar
  split
  · split
    · simp
    · split
      · simp
      · split
        · simp
        · split
          · simp
          · split
            · simp
            · split
              · simp
              · split <;> simp
  · split <;> simp

theorem appendChars_length (s : List Char) : s.length ≤ (appendChars s).length := by
  induction s with
  | nil => simp [appendChars]
  | cons c cs ih =>
    have := appendChar_length c
    simp only [appendChars, List.length_append, List.length_cons]
    omega

theorem readStringBody_appendChars (s : List Char) :
    ∀ (fuel : Nat) (rest : List Char), s.length < fuel →
      readStringBody fuel (appendChars s ++ '"' :: rest) = some (s, rest) := by
  induction s with
  | nil =>
    intro fuel rest hf
    obtain ⟨f, rfl⟩ : ∃ f, fuel = f + 1 := ⟨fuel - 1, by omega⟩
    simp [appendChars, readStringBody]
  | cons c cs ih =>
    intro fuel rest hf
    obtain ⟨f, rfl⟩ : ∃ f, fuel = f + 1 := ⟨fuel - 1, by simp at hf; omega⟩
    simp only [appendChars, List.append_assoc]
    rw [readStringBody_appendChar, ih f rest (by simp at hf; omega)]
    rfl

theorem appendString_length (s : String) : 2 ≤ (appendString s).length := by
  simp [appendString]

theorem readValue_quote (fuel : Nat) (tail d rest : List Char)
    (h : readStringBody tail.length tail = some (d, rest)) :
    readValue (fuel + 1) ('"' :: tail) = some (JValue.string d, rest) := by
  simp [readValue, skipSpace, isSpace, h]

theorem readValue_string (s : String) (fuel : Nat) (rest : List Char) :
    readValue (fuel + 1) (appendString s ++ rest) = some (JValue.string s.data, rest) := by
  have h := readStringBody_appendChars s.data
    (appendChars s.data ++ '"' :: rest).length rest
    (by have := appendChars_length s.data; rw [List.length_append, List.length_cons]; omega)
  have e : appendString s ++ rest = '"' :: (appendChars s.data ++ '"' :: rest) := by
    simp [appendString]
  rw [e]
  exact readValue_quote fuel _ _ _ h

theorem readValue_null (fuel : Nat) (rest : List Char) :
    readValue (fuel + 1) ('n' :: 'u' :: 'l' :: 'l' :: rest) = some (JValue.null, rest) := by
  simp [readValue, skipSpace, isSpace, readWord]

theorem joinComma_cons_cons (x y : List Char) (rest : List (List Char)) :
    joinComma (x :: y :: rest) = x ++ ',' :: joinComma (y :: rest) := rfl

theorem joinComma_length (xs : List String) :
    xs.length ≤ (joinComma (xs.map appendString)).length := by
  induction xs with
  | nil => simp [joinComma]
  | cons x xs ih =>
    cases xs with
    | nil =>
      have := appendString_length x
      simp [joinComma]
      omega
    | cons y ys =>
      have := appendString_length x
      simp only [List.map_cons, joinComma_cons_cons, List.length_append, List.length_cons] at ih ⊢
      omega

theorem readElems_strings (xs : List String) :
    ∀ (x : String) (fuel : Nat) (rest : List Char), xs.length + 2 ≤ fuel →
      readElems fuel (joinComma ((x :: xs).map appendString) ++ ']' :: rest) =
        some ((x :: xs).map (fun s => JValue.string s.data), rest) := by
  induction xs with
  | nil =>
    intro x fuel rest hf
    obtain ⟨f, rfl⟩ : ∃ f, fuel = f + 2 := ⟨fuel - 2, by simp at hf; omega⟩
    simp [joinComma, readElems, readValue_string, skipSpace, isSpace]
  | cons y ys ih =>
    intro x fuel rest hf
    obtain ⟨f, rfl⟩ : ∃ f, fuel = f + 2 := ⟨fuel - 2, by simp at hf; omega⟩
    have h := ih y (f + 1) rest (by simp at hf ⊢; omega)
    simp only [List.map_cons, joinComma_cons_cons, List.append_assoc, List.cons_append] at h ⊢
    rw [readElems]
    simp [readValue_string, skipSpace, isSpace, h]

theorem storeStrings_strings (xs : List String) :
    ∀ backing : List String,
      storeStrings (xs.map (fun s => JValue.string s.data)) backing = Except.ok xs := by
  induction xs with
  | nil => intro backing; rfl
  | cons x xs ih => intro backing; simp [storeStrings, storeString, ih]

theorem encodeSlice_length (sl : Slice String) :
    sl.len ≤ (encodeSlice appendString sl).length := by
  cases sl with
  | none => simp [Slice.len, Slice.toList]
  | some xs =>
    have := joinComma_length xs
    simp only [Slice.len, Slice.toList, encodeSlice, List.length_cons, List.length_append]
    omega

theorem readValue_slice (sl : Slice String) :
    ∃ v, (∀ b : Backed, ∃ sp, storeSlice v b = Except.ok { slice := sl, spare := sp }) ∧
      ∀ (fuel : Nat) (rest : List Char), sl.len + 3 ≤ fuel →
        readValue fuel (encodeSlice appendString sl ++ rest) = some (v, rest) := by
  cases sl with
  | none =>
    refine ⟨JValue.null, fun _ => ⟨[], rfl⟩, ?_⟩
    intro fuel rest hf
    obtain ⟨f, rfl⟩ : ∃ f, fuel = f + 1 := ⟨fuel - 1, by omega⟩
    exact readValue_null f rest
  | some xs =>
    cases xs with
    | nil =>
      refine ⟨JValue.array [], fun _ => ⟨[], rfl⟩, ?_⟩
      intro fuel rest hf
      obtain ⟨f, rfl⟩ : ∃ f, fuel = f + 1 := ⟨fuel - 1, by omega⟩
      simp [encodeSlice, joinComma, readValue, skipSpace, isSpace]
    | cons x xs =>
      refine ⟨JValue.array ((x :: xs).map (fun s => JValue.string s.data)), ?_, ?_⟩
      · intro b
        refine ⟨b.backing.drop (xs.length + 1), ?_⟩
        have h := storeStrings_strings (x :: xs) b.backing
        simp only [List.map_cons] at h
        simp only [List.map_cons, storeSlice, h, List.length_map]
      · intro fuel rest hf
        obtain ⟨f, rfl⟩ : ∃ f, fuel = f + 1 := ⟨fuel - 1, by omega⟩
        have h := readElems_strings xs x f rest
          (by simp [Slice.len, Slice.toList] at hf; omega)
        have hx : ∃ t, appendString x = '"' :: t := ⟨_, rfl⟩
        obtain ⟨t, ht⟩ := hx
        cases xs with
        | nil =>
          simp only [List.map_cons, List.map_nil, joinComma, ht, List.cons_append] at h
          simp [encodeSlice, joinComma, ht, readValue, skipSpace, isSpace, h]
        | cons y ys =>
          simp only [List.map_cons, joinComma_cons_cons, ht, List.cons_append,
            List.append_assoc] at h
          simp [encodeSlice, joinComma_cons_cons, ht, readValue, skipSpace, isSpace, h]

theorem readMembers_last (f : Nat) (L key X rest : List Char) (v : JValue)
    (hL : readStringBody L.length L = some (key, ':' :: X))
    (hv : readValue f X = some (v, '}' :: rest)) :
    readMembers (f + 1) ('"' :: L) = some ([(key, v)], rest) := by
  rw [readMembers]
  simp [skipSpace, isSpace, hL, hv]

theorem readMembers_more (f : Nat) (L key X more : List Char) (v : JValue)
    (hL : readStringBody L.length L = some (key, ':' :: X))
    (hv : readValue f X = some (v, ',' :: more)) :
    readMembers (f + 1) ('"' :: L) =
      (readMembers f more).map (fun p => ((key, v) :: p.1, p.2)) := by
  rw [readMembers]
  simp [skipSpace, isSpace, hL, hv]

theorem readValue_object (f : Nat) (L : List Char) (ms : List (List Char × JValue))
    (rest : List Char) (h : readMembers f ('"' :: L) = some (ms, rest)) :
    readValue (f + 1) ('{' :: '"' :: L) = some (JValue.object ms, rest) := by
  have e1 : skipSpace ('{' :: '"' :: L) = '{' :: '"' :: L := by simp [skipSpace, isSpace]
  have e2 : skipSpace ('"' :: L) = '"' :: L := by simp [skipSpace, isSpace]
  have n1 : ¬ ('{' = '"') := by decide
  have n2 : ¬ ('{' = '[') := by decide
  have n3 : ¬ ('"' = '}') := by decide
  rw [readValue]
  simp only [e1, e2, n1, n2, n3, if_false, if_true, h, Option.map_some']

theorem readKey (key : String) (hkey : appendChars key.data = key.data) (X : List Char) :
    readStringBody (key.data ++ '"' :: ':' :: X).length (key.data ++ '"' :: ':' :: X)
      = some (key.data, ':' :: X) := by
  have h := readStringBody_appendChars key.data (key.data ++ '"' :: ':' :: X).length (':' :: X)
    (by rw [List.length_append, List.length_cons]; omega)
  rw [hkey] at h
  exact h

theorem encodeAppSettings_shape (s : AppSettings) (rest : List Char) :
    encodeAppSettings s ++ rest =
      '{' :: '"' :: ("paths".data ++ '"' :: ':' ::
        (encodeSlice appendString s.Paths ++ ',' :: '"' :: ("domains".data ++ '"' :: ':' ::
          (encodeSlice appendString s.Domains ++ '}' :: rest)))) := by
  have e1 : "\x7b\"paths\":".data = '{' :: '"' :: ("paths".data ++ ['"', ':']) := rfl
  have e2 : ",\"domains\":".data = ',' :: '"' :: ("domains".data ++ ['"', ':']) := rfl
  simp only [encodeAppSettings, e1, e2, List.append_assoc, List.cons_append, List.nil_append]

theorem readValue_settings (s : AppSettings) (fuel : Nat) (rest : List Char)
    (hf : s.Paths.len + s.Domains.len + 8 ≤ fuel) :
    ∃ v1 v2,
      (∀ b : Backed, ∃ sp, storeSlice v1 b = Except.ok { slice := s.Paths, spare := sp }) ∧
      (∀ b : Backed, ∃ sp, storeSlice v2 b = Except.ok { slice := s.Domains, spare := sp }) ∧
      readValue fuel (encodeAppSettings s ++ rest) =
        some (JValue.object [("paths".data, v1), ("domains".data, v2)], rest) := by
  obtain ⟨v1, hs1, hr1⟩ := readValue_slice s.Paths
  obtain ⟨v2, hs2, hr2⟩ := readValue_slice s.Domains
  refine ⟨v1, v2, hs1, hs2, ?_⟩
  obtain ⟨f, rfl⟩ : ∃ f, fuel = f + 3 := ⟨fuel - 3, by omega⟩
  have m2 := readMembers_last f _ _ _ rest v2
    (readKey "domains" rfl (encodeSlice appendString s.Domains ++ '}' :: rest))
    (hr2 f ('}' :: rest) (by omega))
  have m1 := readMembers_more (f + 1) _ _ _ _ v1
    (readKey "paths" rfl (encodeSlice appendString s.Paths ++ ',' :: '"' ::
      ("domains".data ++ '"' :: ':' :: (encodeSlice appendString s.Domains ++ '}' :: rest))))
    (hr1 (f + 1) _ (by omega))
  rw [m2] at m1
  rw [encodeAppSettings_shape]
  exact readValue_object (f + 2) _ _ rest m1

theorem storeMembers_settings (v1 v2 : JValue) (s : AppSettings) (t : Target)
    (h1 : ∀ b : Backed, ∃ sp, storeSlice v1 b = Except.ok { slice := s.Paths, spare := sp })
    (h2 : ∀ b : Backed, ∃ sp, storeSlice v2 b = Except.ok { slice := s.Domains, spare := sp }) :
    ∃ t', storeAppSettings (JValue.object [("paths".data, v1), ("domains".data, v2)]) t
      = Except.ok t' ∧ t'.toSettings = s := by
  have k1 : keyMatches "paths".data "paths" = true := by decide
  have k2 : keyMatches "domains".data "paths" = false := by decide
  have k3 : keyMatches "domains".data "domains" = true := by decide
  obtain ⟨sp1, e1⟩ := h1 t.Paths
  obtain ⟨sp2, e2⟩ := h2 t.Domains
  refine ⟨{ Paths := { slice := s.Paths, spare := sp1 },
            Domains := { slice := s.Domains, spare := sp2 } }, ?_, rfl⟩
  simp [storeAppSettings, storeMembers, k1, k2, k3, e1, e2]

theorem Decode_encodeAppSettings (s t : AppSettings) :
    Decode (String.mk (encodeAppSettings s ++ ['\n'])) t = Except.ok s := by
  have hlen : s.Paths.len + s.Domains.len + 8 ≤ (encodeAppSettings s ++ ['\n']).length + 1 := by
    have h1 := encodeSlice_length s.Paths
    have h2 := encodeSlice_length s.Domains
    simp only [encodeAppSettings, List.length_append, List.length_cons, List.length_nil]
    omega
  obtain ⟨v1, v2, hs1, hs2, hr⟩ := readValue_settings s _ ['\n'] hlen
  obtain ⟨t', ht, hts⟩ := storeMembers_settings v1 v2 s (Target.ofSettings t) hs1 hs2
  simp only [Decode, hr, ht, hts]

/-- C6: for every configuration, decoding the body written by `configHandler`
succeeds and yields that configuration: the same `paths` and the same `domains`,
element for element and in the same order (a list that was never set is
written as `null` and decodes to a list that is not set). -/
theorem configHandler_roundtrip (s t : AppSettings) (r : Request) :
    (configHandler s ResponseWriter.new r).status = some 200 ∧
    (configHandler s ResponseWriter.new r).sentHeader "Content-Type"
      = some "application/json" ∧
    Decode (configHandler s ResponseWriter.new r).body t = Except.ok s ∧
    (∀ s', Decode (configHandler s ResponseWriter.new r).body t = Except.ok s' →
      s'.Paths.toList = s.Paths.toList ∧ s'.Domains.toList = s.Domains.toList) := by
  have hb : configHandler s ResponseWriter.new r =
      { header := [("Content-Type", "application/json")],
        sent := some (200, [("Content-Type", "application/json")]),
        body := String.mk (encodeAppSettings s ++ ['\n']) } := by
    simp only [configHandler, write_new_status]
  rw [hb]
  refine ⟨rfl, rfl, Decode_encodeAppSettings s t, ?_⟩
  intro s' h
  rw [Decode_encodeAppSettings s t] at h
  injection h with h
  subst h
  exact ⟨rfl, rfl⟩

theorem configHandler_roundtrip_witness :
    (configHandler { Paths := some ["/a<b", "/\"q\"\n"], Domains := none }
        ResponseWriter.new bareRequest).body
      = "\x7b\"paths\":[\"/a\\u003cb\",\"/\\\"q\\\"\\n\"],\"domains\":null\x7d\n" ∧
    Decode (configHandler { Paths := some ["/a<b", "/\"q\"\n"], Domains := none }
        ResponseWriter.new bareRequest).body zeroSettings
      = Except.ok { Paths := some ["/a<b", "/\"q\"\n"], Domains := none } :=
  ⟨by decide,
   (configHandler_roundtrip { Paths := some ["/a<b", "/\"q\"\n"], Domains := none }
      zeroSettings bareRequest).2.2.1⟩

/-! ## The body of a status response, read back -/

theorem joinComma_length_ge {α : Type} (enc : α → List Char)
    (h : ∀ x, 3 ≤ (enc x).length) (xs : List α) :
    3 * xs.length ≤ (joinComma (xs.map enc)).length := by
  induction xs with
  | nil => simp [joinComma]
  | cons x xs ih =>
    cases xs with
    | nil =>
      have := h x
      simp [joinComma]
      omega
    | cons y ys =>
      have := h x
      simp only [List.map_cons, joinComma_cons_cons, List.length_append, List.length_cons] at ih ⊢
      omega

theorem readElems_map {α : Type} (enc : α → List Char) (val : α → JValue) (K : Nat)
    (hv : ∀ (x : α) (fuel : Nat) (rest : List Char), K ≤ fuel →
      readValue fuel (enc x ++ rest) = some (val x, rest))
    (xs : List α) :
    ∀ (x : α) (fuel : Nat) (rest : List Char), xs.length + 1 + K ≤ fuel →
      readElems fuel (joinComma ((x :: xs).map enc) ++ ']' :: rest) =
        some ((x :: xs).map val, rest) := by
  induction xs with
  | nil =>
    intro x fuel rest hf
    obtain ⟨f, rfl⟩ : ∃ f, fuel = f + 1 := ⟨fuel - 1, by simp at hf; omega⟩
    have h1 := hv x f (']' :: rest) (by simp at hf; omega)
    simp only [List.map_cons, List.map_nil, joinComma]
    rw [readElems]
    simp [h1, skipSpace, isSpace]
  | cons y ys ih =>
    intro x fuel rest hf
    obtain ⟨f, rfl⟩ : ∃ f, fuel = f + 1 := ⟨fuel - 1, by simp at hf; omega⟩
    have h := ih y f rest (by simp at hf ⊢; omega)
    simp only [List.map_cons, joinComma_cons_cons, List.append_assoc, List.cons_append] at h ⊢
    have h1 := hv x f (',' :: (joinComma (enc y :: List.map enc ys) ++ ']' :: rest))
      (by simp at hf; omega)
    rw [readElems]
    simp [h1, skipSpace, isSpace, h]

theorem readValue_array (f : Nat) (c : Char) (L : List Char) (vs : List JValue)
    (rest : List Char) (hc1 : isSpace c = false) (hc2 : c ≠ ']')
    (h : readElems f (c :: L) = some (vs, rest)) :
    readValue (f + 1) ('[' :: c :: L) = some (JValue.array vs, rest) := by
  have e1 : skipSpace ('[' :: c :: L) = '[' :: c :: L := by simp [skipSpace, isSpace]
  have e2 : skipSpace (c :: L) = c :: L := by simp [skipSpace, hc1]
  have n1 : ¬ ('[' = '"') := by decide
  rw [readValue]
  simp only [e1, e2, n1, hc2, if_false, if_true, h, Option.map_some']

theorem encodeURLStatus_shape (u : URLStatus) (rest : List Char) :
    encodeURLStatus u ++ rest =
      '{' :: '"' :: ("url".data ++ '"' :: ':' ::
        (appendString u.URL ++ ',' :: '"' :: ("status".data ++ '"' :: ':' ::
          (appendString u.Status ++ '}' :: rest)))) := by
  have e1 : "\x7b\"url\":".data = '{' :: '"' :: ("url".data ++ ['"', ':']) := rfl
  have e2 : ",\"status\":".data = ',' :: '"' :: ("status".data ++ ['"', ':']) := rfl
  simp only [encodeURLStatus, e1, e2, List.append_assoc, List.cons_append, List.nil_append]

theorem encodeURLStatus_length (u : URLStatus) : 3 ≤ (encodeURLStatus u).length := by
  have h := congrArg List.length (encodeURLStatus_shape u [])
  simp only [List.append_nil, List.length_cons, List.length_append] at h
  omega

theorem readValue_urlStatus (u : URLStatus) (fuel : Nat) (rest : List Char) (hf : 4 ≤ fuel) :
    readValue fuel (encodeURLStatus u ++ rest) =
      some (JValue.object [("url".data, JValue.string u.URL.data),
                           ("status".data, JValue.string u.Status.data)], rest) := by
  obtain ⟨f, rfl⟩ : ∃ f, fuel = f + 4 := ⟨fuel - 4, by omega⟩
  have m2 := readMembers_last (f + 1) _ _ _ rest (JValue.string u.Status.data)
    (readKey "status" rfl (appendString u.Status ++ '}' :: rest))
    (readValue_string u.Status f ('}' :: rest))
  have m1 := readMembers_more (f + 2) _ _ _ _ (JValue.string u.URL.data)
    (readKey "url" rfl (appendString u.URL ++ ',' :: '"' ::
      ("status".data ++ '"' :: ':' :: (appendString u.Status ++ '}' :: rest))))
    (readValue_string u.URL (f + 1) _)
  rw [m2] at m1
  rw [encodeURLStatus_shape]
  exact readValue_object (f + 3) _ _ rest m1

theorem readValue_statuses (x : URLStatus) (xs : List URLStatus) :
    readValue ((encodeSlice encodeURLStatus (some (x :: xs)) ++ ['\n']).length + 1)
        (encodeSlice encodeURLStatus (some (x :: xs)) ++ ['\n']) =
      some (JValue.array ((x :: xs).map (fun u =>
        JValue.object [("url".data, JValue.string u.URL.data),
                       ("status".data, JValue.string u.Status.data)])), ['\n']) := by
  have hlen := joinComma_length_ge encodeURLStatus encodeURLStatus_length (x :: xs)
  have hshape : encodeSlice encodeURLStatus (some (x :: xs)) ++ ['\n'] =
      '[' :: (joinComma ((x :: xs).map encodeURLStatus) ++ ']' :: ['\n']) := by
    simp [encodeSlice]
  have hel := readElems_map encodeURLStatus
    (fun u => JValue.object [("url".data, JValue.string u.URL.data),
                             ("status".data, JValue.string u.Status.data)]) 4
    (fun u fuel rest hf => readValue_urlStatus u fuel rest hf) xs x
    ((joinComma ((x :: xs).map encodeURLStatus) ++ ']' :: ['\n']).length + 1) ['\n']
    (by
      simp only [List.length_append, List.length_cons, List.length_nil] at hlen ⊢
      omega)
  have hhead : ∃ t, joinComma ((x :: xs).map encodeURLStatus) ++ ']' :: ['\n'] = '{' :: t := by
    cases xs with
    | nil => exact ⟨_, by rw [List.map_cons, List.map_nil, joinComma, encodeURLStatus_shape]⟩
    | cons y ys =>
      exact ⟨_, by
        rw [List.map_cons, List.map_cons, joinComma_cons_cons, List.append_assoc,
          encodeURLStatus_shape]⟩
  obtain ⟨t, ht⟩ := hhead
  rw [hshape, List.length_cons]
  rw [ht] at hel ⊢
  exact readValue_array _ '{' t _ _ (by decide) (by decide) hel

/-- C7: for every request with a non-empty domain, whatever the outcomes of
the checks, the response has status 200 and content type `application/json`.
Without a configured path its body is `null`; otherwise its body reads back
as a JSON array with one object per configured path, in order, the object at
place `i` holding the URL and the status of the `i`-th result, and a check
whose GET request fails with error `e` stands at its place with the status
`"ERROR: " ++ e`: no check is dropped and no failure changes the status of
the response. -/
theorem statusHandler_always_ok {σ : Type} (client : Client σ) (settings : AppSettings)
    (r : Request) (w : World σ) (hd : Values.Get r.query "domain" ≠ "") :
    (statusHandler client settings ResponseWriter.new r w).1.status = some 200 ∧
    (statusHandler client settings ResponseWriter.new r w).1.sentHeader "Content-Type"
      = some "application/json" ∧
    (statusHandler client settings ResponseWriter.new r w).1.body =
      String.mk (encodeSlice encodeURLStatus
        (statusLoop client settings (Values.Get r.query "domain") w).1 ++ ['\n']) ∧
    (statusLoop client settings (Values.Get r.query "domain") w).1.len = settings.Paths.len ∧
    (∀ (i : Nat) (p e : String), settings.Paths.toList[i]? = some p →
      (client.Get
          (statusLoop client { settings with Paths := some (settings.Paths.toList.take i) }
            (Values.Get r.query "domain") w).2.net
          ("https://" ++ Values.Get r.query "domain" ++ p)).1 = GetResult.err e →
      (statusLoop client settings (Values.Get r.query "domain") w).1.toList[i]? =
          some ({ URL := "https://" ++ Values.Get r.query "domain" ++ p,
                  Status := "ERROR: " ++ e } : URLStatus) ∧
        HasPrefix ("ERROR: " ++ e) "ERROR: ") ∧
    (settings.Paths.len = 0 →
      (statusHandler client settings ResponseWriter.new r w).1.body = "null\n") ∧
    (0 < settings.Paths.len →
      ∃ vs : List JValue,
        readValue ((statusHandler client settings ResponseWriter.new r w).1.body.data.length + 1)
            (statusHandler client settings ResponseWriter.new r w).1.body.data
          = some (JValue.array vs, ['\n']) ∧
        vs.length = settings.Paths.len ∧
        (∀ (i : Nat) (u : URLStatus),
          (statusLoop client settings (Values.Get r.query "domain") w).1.toList[i]? = some u →
          vs[i]? = some (JValue.object [("url".data, JValue.string u.URL.data),
                                        ("status".data, JValue.string u.Status.data)])) ∧
        (∀ (i : Nat) (p e : String), settings.Paths.toList[i]? = some p →
          (client.Get
              (statusLoop client { settings with Paths := some (settings.Paths.toList.take i) }
                (Values.Get r.query "domain") w).2.net
              ("https://" ++ Values.Get r.query "domain" ++ p)).1 = GetResult.err e →
          vs[i]? = some (JValue.object
            [("url".data, JValue.string ("https://" ++ Values.Get r.query "domain" ++ p).data),
             ("status".data, JValue.string ("ERROR: " ++ e).data)]))) := by
  obtain ⟨h1, h2, _⟩ :=
    statusLoop_foldl client (Values.Get r.query "domain") w settings.Paths.toList
  have herr : ∀ (i : Nat) (p e : String), settings.Paths.toList[i]? = some p →
      (client.Get
          (statusLoop client { settings with Paths := some (settings.Paths.toList.take i) }
            (Values.Get r.query "domain") w).2.net
          ("https://" ++ Values.Get r.query "domain" ++ p)).1 = GetResult.err e →
      (statusLoop client settings (Values.Get r.query "domain") w).1.toList[i]? =
          some ({ URL := "https://" ++ Values.Get r.query "domain" ++ p,
                  Status := "ERROR: " ++ e } : URLStatus) := by
    intro i p e hp he
    rw [statusLoop, h2 i p hp]
    have h3 : (checkURL client ("https://" ++ Values.Get r.query "domain" ++ p)
        ((settings.Paths.toList.take i).foldl
          (statusStep client (Values.Get r.query "domain")) (none, w)).2).1 = "ERROR: " ++ e :=
      checkURL_of_err client _ _ e he
    rw [h3]
  rw [statusHandler_of_domain client settings _ r w hd, write_new_status]
  refine ⟨rfl, rfl, rfl, h1, fun i p e hp he => ⟨herr i p e hp he, hasPrefix_append _ _⟩, ?_, ?_⟩
  · intro h0
    have hl : (statusLoop client settings (Values.Get r.query "domain") w).1.toList.length = 0 := by
      rw [← h0]
      exact h1
    have hn : (statusLoop client settings (Values.Get r.query "domain") w).1 = none := by
      have hs : statusLoop client settings (Values.Get r.query "domain") w =
          settings.Paths.toList.foldl (statusStep client (Values.Get r.query "domain"))
            (none, w) := rfl
      have hp : settings.Paths.toList = [] := List.length_eq_zero.mp h0
      rw [hs, hp]
      rfl
    show String.mk (encodeSlice encodeURLStatus
      (statusLoop client settings (Values.Get r.query "domain") w).1 ++ ['\n']) = "null\n"
    rw [hn]
    rfl
  · intro hpos
    show ∃ vs : List JValue,
      readValue ((encodeSlice encodeURLStatus
          (statusLoop client settings (Values.Get r.query "domain") w).1 ++ ['\n']).length + 1)
          (encodeSlice encodeURLStatus
            (statusLoop client settings (Values.Get r.query "domain") w).1 ++ ['\n'])
        = some (JValue.array vs, ['\n']) ∧ _
    have h1' : (statusLoop client settings (Values.Get r.query "domain") w).1.toList.length
        = settings.Paths.len := h1
    have herr' := herr
    generalize (statusLoop client settings (Values.Get r.query "domain") w).1 = res
      at h1' herr' ⊢
    cases res with
    | none =>
      simp [Slice.toList] at h1'
      omega
    | some l =>
      cases l with
      | nil =>
        simp [Slice.toList] at h1'
        omega
      | cons x xs =>
        refine ⟨_, readValue_statuses x xs, ?_, ?_, ?_⟩
        · rw [List.length_map]
          exact h1'
        · intro i u hu
          rw [List.getElem?_map]
          have hu' : (x :: xs)[i]? = some u := hu
          rw [hu']
          rfl
        · intro i p e hp he
          have hu' : (x :: xs)[i]? = _ := herr' i p e hp he
          rw [List.getElem?_map, hu']
          rfl

set_option maxRecDepth 100000 in
theorem statusHandler_always_ok_witness :
    (statusHandler deadClient demoSettings ResponseWriter.new demoRequest (world0 ())).1.status
      = some 200 ∧
    (statusHandler deadClient demoSettings ResponseWriter.new demoRequest (world0 ())).1.body =
      "[\x7b\"url\":\"https://example.com/health\"," ++
        "\"status\":\"ERROR: Get \\\"https://example.com/health\\\": dial tcp: no such host\"\x7d," ++
      "\x7b\"url\":\"https://example.com/login\"," ++
        "\"status\":\"ERROR: Get \\\"https://example.com/login\\\": dial tcp: no such host\"\x7d," ++
      "\x7b\"url\":\"https://example.com/health\"," ++
        "\"status\":\"ERROR: Get \\\"https://example.com/health\\\": dial tcp: no such host\"\x7d]\n" ∧
    (∃ vs : List JValue,
      readValue
          ((statusHandler deadClient demoSettings ResponseWriter.new demoRequest
            (world0 ())).1.body.data.length + 1)
          (statusHandler deadClient demoSettings ResponseWriter.new demoRequest
            (world0 ())).1.body.data
        = some (JValue.array vs, ['\n']) ∧
      vs.length = 3 ∧
      vs[1]? = some (JValue.object
        [("url".data, JValue.string "https://example.com/login".data),
         ("status".data, JValue.string
            "ERROR: Get \"https://example.com/login\": dial tcp: no such host".data)])) := by
  have h := statusHandler_always_ok deadClient demoSettings demoRequest (world0 ()) (by decide)
  refine ⟨h.1, by decide, ?_⟩
  obtain ⟨vs, hv1, hv2, _, hv4⟩ := h.2.2.2.2.2.2 (by decide)
  exact ⟨vs, hv1, hv2,
    hv4 1 "/login" "Get \"https://example.com/login\": dial tcp: no such host"
      (by decide) (by decide)⟩

end Healthcheck
